import Mathlib

/-!
Verification of the tolgee-cli core components: the credential store /
resolver and the generic HTTP request executor.

The credential resolver (`saveApiKey` / `getApiKey`) is embedded from the
specification (its implementation file `src/config/credentials.ts` is not
part of the provided sources; only its test suite is). The request
executor is embedded from `src/client/internal/client.ts` and the import
client from `src/client/import.ts`.
-/

namespace Tolgee

/-! ## Credential data model -/

/-- A project reference carried by a project API key. -/
structure Project where
  id : Int
  name : String
deriving DecidableEq

/-- Modelled from the spec: the credential tagged union of
`src/config/credentials.ts` (not in the source tree). A `pat` is a
personal access token scoped to a whole instance; a `pak` is a project
API key scoped to one project. `expires = 0` means "never expires",
any other value is a timestamp after which the credential is invalid. -/
inductive Credential where
  | pat (key : String) (username : String) (expires : Nat)
  | pak (key : String) (username : String) (project : Project) (expires : Nat)
deriving DecidableEq

def Credential.key : Credential → String
  | .pat k _ _ => k
  | .pak k _ _ _ => k

def Credential.expires : Credential → Nat
  | .pat _ _ e => e
  | .pak _ _ _ e => e

def Credential.isPat : Credential → Bool
  | .pat _ _ _ => true
  | .pak _ _ _ _ => false

def Credential.pakProjectId : Credential → Option Int
  | .pat _ _ _ => none
  | .pak _ _ p _ => some p.id

/-- Modelled from the spec: a credential is expired when `expires` is
non-zero and earlier than the current time. -/
def Credential.expired (now : Nat) (c : Credential) : Bool :=
  decide (c.expires ≠ 0 ∧ c.expires < now)

/-- The persisted store document: remote-instance host → stored credentials. -/
abbrev StoreDoc := String → List Credential

/-- Modelled from the spec: identity used by `saveApiKey`'s
replacement-on-save — a PAT matches any PAT, a PAK matches a PAK with the
same project id. -/
def matchesIdentity (newCred old : Credential) : Bool :=
  match newCred, old with
  | .pat _ _ _, .pat _ _ _ => true
  | .pak _ _ p _, .pak _ _ q _ => p.id == q.id
  | _, _ => false

/-- Modelled from the spec: `saveApiKey` of `src/config/credentials.ts`
(not in the source tree). Loads the document, removes from the host's list
any entry whose identity matches the new credential, appends the new
credential, persists the full document. -/
def saveApiKey (doc : StoreDoc) (host : String) (c : Credential) : StoreDoc :=
  fun h =>
    if h = host then (doc host).filter (fun o => !matchesIdentity c o) ++ [c]
    else doc h

/-- Modelled from the spec: the selection priority of `getApiKey` — a valid
PAT (first encountered) outranks everything; otherwise the first valid PAK
whose project id equals the requested one; otherwise null. -/
def selectKey (valid : List Credential) (projectId : Int) : Option String :=
  match valid.find? (fun c => c.isPat) with
  | some c => some c.key
  | none =>
    match valid.find? (fun c => c.pakProjectId == some projectId) with
    | some c => some c.key
    | none => none

/-- Modelled from the spec: `getApiKey` of `src/config/credentials.ts`
(not in the source tree). Loads the host's list, prunes expired entries
(write-back to the store when any entry was expired), and selects among the
valid ones. Returns the resolved key (or none) together with the persisted
store after the call. -/
def getApiKey (doc : StoreDoc) (now : Nat) (host : String) (projectId : Int) :
    Option String × StoreDoc :=
  let list := doc host
  let valid := list.filter (fun c => !(Credential.expired now c))
  let doc' :=
    if list.any (fun c => Credential.expired now c) then
      fun h => if h = host then valid else doc h
    else doc
  (selectKey valid projectId, doc')

/-- A valid (non-expired) PAT. -/
def isValidPat (now : Nat) (c : Credential) : Bool :=
  c.isPat && !(Credential.expired now c)

/-- A valid (non-expired) PAK for the given project id. -/
def isValidPakFor (now : Nat) (projectId : Int) (c : Credential) : Bool :=
  (c.pakProjectId == some projectId) && !(Credential.expired now c)

/-- Membership in the pruned (valid) sublist of a credential list. -/
theorem validList_mem (now : Nat) (l : List Credential) (c : Credential) :
    c ∈ l.filter (fun c => !(Credential.expired now c)) ↔
      c ∈ l ∧ Credential.expired now c = false := by
  simp [List.mem_filter]

/-- If `selectKey` resolves a key, some credential in the list carries it. -/
theorem selectKey_mem (valid : List Credential) (projectId : Int) (k : String)
    (h : selectKey valid projectId = some k) : ∃ c ∈ valid, c.key = k := by
  unfold selectKey at h
  cases hfind : valid.find? (fun c => c.isPat) with
  | some c =>
    rw [hfind] at h
    exact ⟨c, List.mem_of_find?_eq_some hfind, Option.some.inj h⟩
  | none =>
    rw [hfind] at h
    cases hfind2 : valid.find? (fun c => c.pakProjectId == some projectId) with
    | some c =>
      rw [hfind2] at h
      exact ⟨c, List.mem_of_find?_eq_some hfind2, Option.some.inj h⟩
    | none => rw [hfind2] at h; exact absurd h (by simp)

/-- C1: if a valid PAT is stored for the host (uniquely keyed, per the store
invariant), `getApiKey` returns its key for every requested project id;
otherwise, if a valid PAK with the requested project id is stored, its key
is returned; otherwise the result is `none` (a valid result, not an error). -/
theorem getApiKey_selection (doc : StoreDoc) (now : Nat) (host : String) (projectId : Int) :
    (∀ k : String,
      (∃ c ∈ doc host, isValidPat now c = true ∧ c.key = k) →
      (∀ c ∈ doc host, isValidPat now c = true → c.key = k) →
      (getApiKey doc now host projectId).1 = some k) ∧
    ((∀ c ∈ doc host, isValidPat now c = false) →
      ((∀ k : String,
        (∃ c ∈ doc host, isValidPakFor now projectId c = true ∧ c.key = k) →
        (∀ c ∈ doc host, isValidPakFor now projectId c = true → c.key = k) →
        (getApiKey doc now host projectId).1 = some k) ∧
      ((∀ c ∈ doc host, isValidPakFor now projectId c = false) →
        (getApiKey doc now host projectId).1 = none))) := by
  have hfst : (getApiKey doc now host projectId).1 =
      selectKey ((doc host).filter (fun c => !(Credential.expired now c))) projectId := rfl
  constructor
  · rintro k ⟨c, hc, hpat, hkey⟩ hall
    have hpat' : c.isPat = true ∧ Credential.expired now c = false := by
      simpa [isValidPat, Bool.and_eq_true] using hpat
    have hcv : c ∈ (doc host).filter (fun c => !(Credential.expired now c)) :=
      (validList_mem now (doc host) c).mpr ⟨hc, hpat'.2⟩
    rw [hfst]
    unfold selectKey
    cases hfind : ((doc host).filter (fun c => !(Credential.expired now c))).find?
        (fun c => c.isPat) with
    | none => exact absurd hpat'.1 (List.find?_eq_none.mp hfind c hcv)
    | some c' =>
      have hc'p : c'.isPat = true := List.find?_some hfind
      have hc'm := (validList_mem now (doc host) c').mp (List.mem_of_find?_eq_some hfind)
      have hkc' : c'.key = k := hall c' hc'm.1 (by simp [isValidPat, hc'p, hc'm.2])
      show some c'.key = some k
      rw [hkc']
  · intro hnopat
    have hfindnone : ((doc host).filter (fun c => !(Credential.expired now c))).find?
        (fun c => c.isPat) = none := by
      rw [List.find?_eq_none]
      intro c hcm
      have hm := (validList_mem now (doc host) c).mp hcm
      have hnp := hnopat c hm.1
      simp [isValidPat, hm.2] at hnp
      simp [hnp]
    constructor
    · rintro k ⟨c, hc, hpak, hkey⟩ hall
      have hpak' : (c.pakProjectId == some projectId) = true ∧
          Credential.expired now c = false := by
        simpa [isValidPakFor, Bool.and_eq_true] using hpak
      have hcv : c ∈ (doc host).filter (fun c => !(Credential.expired now c)) :=
        (validList_mem now (doc host) c).mpr ⟨hc, hpak'.2⟩
      rw [hfst]
      unfold selectKey
      rw [hfindnone]
      cases hfind2 : ((doc host).filter (fun c => !(Credential.expired now c))).find?
          (fun c => c.pakProjectId == some projectId) with
      | none => exact absurd hpak'.1 (List.find?_eq_none.mp hfind2 c hcv)
      | some c' =>
        have hc'p : (c'.pakProjectId == some projectId) = true := by
          simpa using List.find?_some hfind2
        have hc'm := (validList_mem now (doc host) c').mp (List.mem_of_find?_eq_some hfind2)
        have hkc' : c'.key = k := hall c' hc'm.1 (by simp [isValidPakFor, hc'p, hc'm.2])
        show some c'.key = some k
        rw [hkc']
    · intro hnopak
      have hfind2none : ((doc host).filter (fun c => !(Credential.expired now c))).find?
          (fun c => c.pakProjectId == some projectId) = none := by
        rw [List.find?_eq_none]
        intro c hcm
        have hm := (validList_mem now (doc host) c).mp hcm
        have hnp := hnopak c hm.1
        simp [isValidPakFor, hm.2] at hnp
        simp [hnp]
      rw [hfst]
      unfold selectKey
      rw [hfindnone, hfind2none]

/-- Witness for C1 at a concrete store: a host holding one valid PAT
resolves to its key for an arbitrary project id. -/
theorem getApiKey_selection_witness :
    (getApiKey (fun _ => [Credential.pat "tgpat_xxxxxxxxxx" "sleepycat" 0]) 5
      "app.tolgee.io" 7).1 = some "tgpat_xxxxxxxxxx" :=
  (getApiKey_selection (fun _ => [Credential.pat "tgpat_xxxxxxxxxx" "sleepycat" 0]) 5
      "app.tolgee.io" 7).1 "tgpat_xxxxxxxxxx" (by decide) (by decide)

/-- C2: an expired credential (non-zero `expires` earlier than now) is never
the source of the resolved key, and any `getApiKey` call that encounters it
removes it from the persisted store: a subsequent load no longer contains it. -/
theorem getApiKey_expired_pruned (doc : StoreDoc) (now : Nat) (host : String)
    (projectId : Int) (c : Credential) (hc : c ∈ doc host)
    (h0 : c.expires ≠ 0) (hlt : c.expires < now) :
    c ∉ (getApiKey doc now host projectId).2 host ∧
    ((∀ c' ∈ doc host, Credential.expired now c' = false → c'.key ≠ c.key) →
      (getApiKey doc now host projectId).1 ≠ some c.key) := by
  have hexp : Credential.expired now c = true := by
    unfold Credential.expired; exact decide_eq_true ⟨h0, hlt⟩
  have hany : (doc host).any (fun c => Credential.expired now c) = true :=
    List.any_eq_true.mpr ⟨c, hc, hexp⟩
  have hsnd : (getApiKey doc now host projectId).2 host =
      (doc host).filter (fun c => !(Credential.expired now c)) := by
    show (if (doc host).any (fun c => Credential.expired now c) then
        fun h => if h = host then (doc host).filter (fun c => !(Credential.expired now c))
        else doc h else doc) host = _
    rw [if_pos hany]
    simp
  constructor
  · rw [hsnd]
    intro hmem
    have := ((validList_mem now (doc host) c).mp hmem).2
    rw [hexp] at this
    exact absurd this (by simp)
  · intro hnokey hres
    have hfst : (getApiKey doc now host projectId).1 =
        selectKey ((doc host).filter (fun c => !(Credential.expired now c))) projectId := rfl
    rw [hfst] at hres
    obtain ⟨c', hc', hkey⟩ := selectKey_mem _ _ _ hres
    have hm := (validList_mem now (doc host) c').mp hc'
    exact hnokey c' hm.1 hm.2 hkey

/-- Witness for C2 at a concrete store holding one expired PAT: resolution
yields `none` and the pruned store no longer contains the expired entry. -/
theorem getApiKey_expired_pruned_witness :
    Credential.pat "tgpat_expired" "sleepycat" 2 ∉
      (getApiKey (fun _ => [Credential.pat "tgpat_expired" "sleepycat" 2]) 5
        "nya.local" (-1)).2 "nya.local" ∧
    (getApiKey (fun _ => [Credential.pat "tgpat_expired" "sleepycat" 2]) 5
        "nya.local" (-1)).1 ≠ some "tgpat_expired" := by
  have h := getApiKey_expired_pruned
    (fun _ => [Credential.pat "tgpat_expired" "sleepycat" 2]) 5 "nya.local" (-1)
    (Credential.pat "tgpat_expired" "sleepycat" 2) (by decide) (by decide) (by decide)
  exact ⟨h.1, h.2 (by decide)⟩

/-! ## Store invariant preserved by saveApiKey -/

/-- The store invariant: per host, at most one PAT and at most one PAK per
project id. -/
def StoreInvariant (doc : StoreDoc) : Prop :=
  ∀ h : String,
    ((doc h).filter (fun c => c.isPat)).length ≤ 1 ∧
    ∀ pid : Int, ((doc h).filter (fun c => c.pakProjectId == some pid)).length ≤ 1

/-- Filtering by `p` after filtering by `q` yields nothing when `p` and `q`
are incompatible. -/
theorem filter_filter_nil {α : Type} (p q : α → Bool)
    (hpq : ∀ x, p x = true → q x = false) (l : List α) :
    (l.filter q).filter p = [] := by
  induction l with
  | nil => rfl
  | cons x xs ih =>
    by_cases hq : q x = true
    · rw [List.filter_cons_of_pos hq]
      by_cases hp : p x = true
      · rw [hpq x hp] at hq; exact absurd hq (by simp)
      · rw [List.filter_cons_of_neg (by simpa using hp)]; exact ih
    · rw [List.filter_cons_of_neg (by simpa using hq)]; exact ih

/-- Filtering a filtered list never yields more elements than filtering the
original list. -/
theorem filter_filter_length_le {α : Type} (p q : α → Bool) (l : List α) :
    ((l.filter q).filter p).length ≤ (l.filter p).length := by
  induction l with
  | nil => exact Nat.le_refl _
  | cons x xs ih =>
    by_cases hq : q x = true
    · rw [List.filter_cons_of_pos hq]
      by_cases hp : p x = true
      · rw [List.filter_cons_of_pos hp, List.filter_cons_of_pos hp]
        exact Nat.succ_le_succ ih
      · rw [List.filter_cons_of_neg (by simpa using hp),
          List.filter_cons_of_neg (by simpa using hp)]
        exact ih
    · rw [List.filter_cons_of_neg (by simpa using hq)]
      by_cases hp : p x = true
      · rw [List.filter_cons_of_pos hp]
        exact Nat.le_trans ih (Nat.le_succ _)
      · rw [List.filter_cons_of_neg (by simpa using hp)]
        exact ih

/-- A PAT's identity matches exactly the PATs. -/
theorem matchesIdentity_pat (k u : String) (e : Nat) (o : Credential) :
    matchesIdentity (Credential.pat k u e) o = o.isPat := by
  cases o <;> rfl

/-- A PAK's identity matches exactly the PAKs with the same project id. -/
theorem matchesIdentity_pak (k u : String) (p : Project) (e : Nat) (o : Credential) :
    matchesIdentity (Credential.pak k u p e) o = (o.pakProjectId == some p.id) := by
  cases o with
  | pat _ _ _ => rfl
  | pak _ _ q _ =>
    show (p.id == q.id) = (some q.id == some p.id)
    simp [BEq.comm]

/-- C3: `saveApiKey` preserves the store invariant (at most one PAT per host,
at most one PAK per host and project id); hosts other than the saved one are
untouched, and the saved host's list contains exactly the new credential plus
the old entries whose identity does not match it. -/
theorem saveApiKey_invariant (doc : StoreDoc) (host : String) (c : Credential)
    (hinv : StoreInvariant doc) :
    StoreInvariant (saveApiKey doc host c) ∧
    (∀ h : String, h ≠ host → saveApiKey doc host c h = doc h) ∧
    (∀ o : Credential, o ∈ saveApiKey doc host c host ↔
      ((o ∈ doc host ∧ matchesIdentity c o = false) ∨ o = c)) := by
  have hother : ∀ h : String, h ≠ host → saveApiKey doc host c h = doc h := by
    intro h hne
    show (if h = host then _ else doc h) = doc h
    rw [if_neg hne]
  have hhost : saveApiKey doc host c host =
      (doc host).filter (fun o => !matchesIdentity c o) ++ [c] := by
    show (if host = host then _ else _) = _
    rw [if_pos rfl]
  refine ⟨?_, hother, ?_⟩
  · intro h
    by_cases hh : h = host
    · subst hh
      rw [hhost]
      constructor
      · rw [List.filter_append]
        rw [List.length_append]
        cases c with
        | pat k u e =>
          have hside : ∀ x : Credential, x.isPat = true →
              (!matchesIdentity (Credential.pat k u e) x) = false := by
            intro x hx
            rw [matchesIdentity_pat, hx]
            rfl
          have hnil := filter_filter_nil (fun c => c.isPat)
            (fun o => !matchesIdentity (Credential.pat k u e) o) hside (doc h)
          rw [hnil]
          simp [Credential.isPat]
        | pak k u p e =>
          have h1 : (((doc h).filter (fun o => !matchesIdentity (Credential.pak k u p e) o)).filter
              (fun c => c.isPat)).length ≤ 1 :=
            Nat.le_trans (filter_filter_length_le _ _ (doc h)) (hinv h).1
          have h2 : ([Credential.pak k u p e].filter (fun c => c.isPat)).length = 0 := by
            simp [Credential.isPat]
          omega
      · intro pid
        rw [List.filter_append, List.length_append]
        cases c with
        | pat k u e =>
          have h1 : (((doc h).filter (fun o => !matchesIdentity (Credential.pat k u e) o)).filter
              (fun c => c.pakProjectId == some pid)).length ≤ 1 :=
            Nat.le_trans (filter_filter_length_le _ _ (doc h)) ((hinv h).2 pid)
          have h2 : ([Credential.pat k u e].filter
              (fun c => c.pakProjectId == some pid)).length = 0 := by
            simp [Credential.pakProjectId]
          omega
        | pak k u p e =>
          by_cases hpid : p.id = pid
          · subst hpid
            have hside : ∀ x : Credential, (x.pakProjectId == some p.id) = true →
                (!matchesIdentity (Credential.pak k u p e) x) = false := by
              intro x hx
              rw [matchesIdentity_pak, hx]
              rfl
            have hnil := filter_filter_nil (fun c => c.pakProjectId == some p.id)
              (fun o => !matchesIdentity (Credential.pak k u p e) o) hside (doc h)
            rw [hnil]
            simp [Credential.pakProjectId]
          · have h1 : (((doc h).filter
                (fun o => !matchesIdentity (Credential.pak k u p e) o)).filter
                (fun c => c.pakProjectId == some pid)).length ≤ 1 :=
              Nat.le_trans (filter_filter_length_le _ _ (doc h)) ((hinv h).2 pid)
            have h2 : ([Credential.pak k u p e].filter
                (fun c => c.pakProjectId == some pid)).length = 0 := by
              simp [Credential.pakProjectId, hpid]
            omega
    · rw [hother h hh]
      exact hinv h
  · intro o
    rw [hhost]
    simp [List.mem_filter]

/-- Witness for C3: saving a PAK into an empty store puts it into the saved
host's list. -/
theorem saveApiKey_invariant_witness :
    Credential.pak "tgpak_gfpw2zlpo4qhk53v" "sleepycat" ⟨1, "project 1"⟩ 0 ∈
      saveApiKey (fun _ => []) "app.tolgee.io"
        (Credential.pak "tgpak_gfpw2zlpo4qhk53v" "sleepycat" ⟨1, "project 1"⟩ 0)
        "app.tolgee.io" :=
  ((saveApiKey_invariant (fun _ => []) "app.tolgee.io"
      (Credential.pak "tgpak_gfpw2zlpo4qhk53v" "sleepycat" ⟨1, "project 1"⟩ 0)
      (fun _ => ⟨by simp, fun _ => by simp⟩)).2.2 _).mpr (Or.inr rfl)

/-! ## Request executor (embedded from src/client/internal/client.ts) -/

/-- A primitive query value (`string | boolean | number`). -/
inductive Prim where
  | str (s : String)
  | bool (b : Bool)
  | num (n : Int)
deriving DecidableEq

/-- JavaScript `String(v)` on a primitive. -/
def Prim.toStr : Prim → String
  | .str s => s
  | .bool b => if b then "true" else "false"
  | .num n => toString n

/-- A value of the `query` record: `Primitive | Primitive[] | undefined`. -/
inductive QueryVal where
  | undef
  | scalar (p : Prim)
  | list (ps : List Prim)
deriving DecidableEq

/-- `URLSearchParams.set`: replaces the first pair with the given key (and
drops any later pairs with that key), or appends the pair if the key is
absent. -/
def setParam : List (String × String) → String → String → List (String × String)
  | [], k, v => [(k, v)]
  | p :: ps, k, v =>
    if p.1 = k then (k, v) :: ps.filter (fun q => q.1 != k)
    else p :: setParam ps k v

/-- `URLSearchParams.append`: adds the pair at the end. -/
def appendParam (ps : List (String × String)) (k v : String) : List (String × String) :=
  ps ++ [(k, v)]

/-- One iteration of the query-serialization loop of `Client.request`:
`undefined` values are skipped, scalars use `searchParams.set`, arrays
append one entry per element in order. -/
def applyQueryEntry (ps : List (String × String)) : String × QueryVal → List (String × String)
  | (_, .undef) => ps
  | (k, .scalar p) => setParam ps k p.toStr
  | (k, .list l) => l.foldl (fun acc x => appendParam acc k x.toStr) ps

/-- The full query-serialization loop of `Client.request`, starting from the
URL's (empty) search params. -/
def buildQuery (q : List (String × QueryVal)) : List (String × String) :=
  q.foldl applyQueryEntry []

/-- The ordered list of values carried by key `k` in a search-params list. -/
def occ (k : String) (ps : List (String × String)) : List String :=
  (ps.filter (fun p => p.1 == k)).map (fun p => p.2)

/-- JavaScript object key assignment `h[k] = v`: replaces the value in place
when the key exists, appends otherwise. -/
def setHdr (hs : List (String × String)) (k v : String) : List (String × String) :=
  if hs.any (fun p => p.1 == k) then hs.map (fun p => if p.1 = k then (k, v) else p)
  else hs ++ [(k, v)]

/-- Header lookup (first matching key). -/
def getHdr (hs : List (String × String)) (k : String) : Option String :=
  (hs.find? (fun p => p.1 == k)).map (fun p => p.2)

/-- A JSON-serializable body value. -/
inductive JsonVal where
  | null
  | bool (b : Bool)
  | num (n : Int)
  | str (s : String)
  | arr (elems : List JsonVal)
  | obj (fields : List (String × JsonVal))

/-- JSON string escaping for quotes and backslashes. -/
def jsonEscapeChar (ch : Char) : String :=
  if ch = '"' then "\\\"" else if ch = '\\' then "\\\\" else String.singleton ch

def jsonEscape (s : String) : String :=
  String.join (s.toList.map jsonEscapeChar)

mutual

/-- `JSON.stringify` on a JSON value. -/
def JsonVal.stringify : JsonVal → String
  | .null => "null"
  | .bool b => if b then "true" else "false"
  | .num n => toString n
  | .str s => "\"" ++ jsonEscape s ++ "\""
  | .arr es => "[" ++ stringifyArr es ++ "]"
  | .obj fs => "\x7b" ++ stringifyObj fs ++ "\x7d"

def stringifyArr : List JsonVal → String
  | [] => ""
  | [x] => JsonVal.stringify x
  | x :: y :: xs => JsonVal.stringify x ++ "," ++ stringifyArr (y :: xs)

def stringifyObj : List (String × JsonVal) → String
  | [] => ""
  | [(k, v)] => "\"" ++ jsonEscape k ++ "\":" ++ JsonVal.stringify v
  | (k, v) :: f :: fs =>
    "\"" ++ jsonEscape k ++ "\":" ++ JsonVal.stringify v ++ "," ++ stringifyObj (f :: fs)

end

/-- A multipart form payload (the `form-data` package object), abstracted by
its boundary and encoded buffer. -/
structure FormData where
  boundary : String
  buffer : List Nat
deriving DecidableEq

/-- The `body` field of a request descriptor: absent, a `FormData`
instance, or any other JSON-serializable value. -/
inductive ReqBody where
  | none
  | form (fd : FormData)
  | json (v : JsonVal)

/-- JavaScript truthiness of a JSON value. -/
def JsonVal.truthy : JsonVal → Bool
  | .null => false
  | .bool b => b
  | .num n => n != 0
  | .str s => s != ""
  | .arr _ => true
  | .obj _ => true

/-- JavaScript truthiness of the descriptor's `body` field (`if (req.body)`):
an absent body is falsy, a `FormData` object is truthy, any other value by
JS truthiness. -/
def ReqBody.truthy : ReqBody → Bool
  | .none => false
  | .form _ => true
  | .json v => v.truthy

/-- The request descriptor `RequestData` of `client.ts`. -/
structure RequestData where
  method : String
  path : String
  body : ReqBody
  query : List (String × QueryVal)
  headers : List (String × String)

/-- Client construction parameters (`apiUrl`, `apiKey`, optional
`projectId`; `none` models an absent `projectId` field). -/
structure ClientParams where
  apiUrl : String
  apiKey : String
  projectId : Option Int
deriving DecidableEq

/-- `Client.projectUrl`: the project-scoped prefix when a project id is
present and differs from the `-1` sentinel, the unscoped prefix otherwise. -/
def projectUrl (params : ClientParams) : String :=
  match params.projectId with
  | some pid => if pid != -1 then "/v2/projects/" ++ toString pid else "/v2/projects"
  | none => "/v2/projects"

/-- The path built by `ImportClient.addFiles`. -/
def addFilesPath (params : ClientParams) : String :=
  projectUrl params ++ "/import"

/-- The path built by `ImportClient.applyImport`. -/
def applyImportPath (params : ClientParams) : String :=
  projectUrl params ++ "/import/apply"

/-- The path built by `ImportClient.deleteImport`. -/
def deleteImportPath (params : ClientParams) : String :=
  projectUrl params ++ "/import"

/-- A body as sent on the wire: a JSON string or multipart bytes. -/
inductive SentBody where
  | str (s : String)
  | bytes (b : List Nat)
deriving DecidableEq

/-- The fully built HTTP request handed to the transport. -/
structure IssuedRequest where
  urlPath : String
  urlParams : List (String × String)
  method : String
  headers : List (String × String)
  body : Option SentBody

/-- The `user-agent` value set by the free `request` function. -/
def userAgent (version : String) : String :=
  "Tolgee-CLI/" ++ version ++ " (+https://github.com/tolgee/tolgee-cli)"

/-- `Client.request` composed with the header mutation of the free `request`
function: query serialization, header merging (`x-api-key` override,
`content-type` from the body kind, `user-agent` from the tool identity), and
body encoding guarded by JS truthiness of `req.body`. -/
def clientRequest (params : ClientParams) (version : String) (req : RequestData) :
    IssuedRequest :=
  let urlParams := buildQuery req.query
  let headers0 := setHdr req.headers "x-api-key" params.apiKey
  let hb : List (String × String) × Option SentBody :=
    if req.body.truthy then
      match req.body with
      | .form fd =>
        (setHdr headers0 "content-type" ("multipart/form-data; boundary=" ++ fd.boundary),
          some (SentBody.bytes fd.buffer))
      | .json v =>
        (setHdr headers0 "content-type" "application/json",
          some (SentBody.str v.stringify))
      | .none => (headers0, Option.none)
    else (headers0, Option.none)
  let headers1 := setHdr hb.1 "user-agent" (userAgent version)
  ⟨req.path, urlParams, req.method, headers1, hb.2⟩

/-- A raw transport response: status, headers, and the body stream as an
optional list of not-yet-consumed chunks (`null` bodies are `none`). -/
structure RawResponse where
  status : Nat
  headers : List (String × String)
  bodyChunks : Option (List (List Nat))
deriving DecidableEq

/-- `Response.ok` of the fetch API: status in the 2xx range. -/
def RawResponse.ok (r : RawResponse) : Bool :=
  decide (200 ≤ r.status ∧ r.status ≤ 299)

/-- Errors surfaced by the executor: an `HttpError` carrying the raw
response, or a transport failure. -/
inductive ClientError where
  | http (response : RawResponse)
  | transport (message : String)
deriving DecidableEq

/-- The response classification of the free `request` function:
`if (!res.ok) throw new HttpError(res); return res;`. -/
def handleResponse (res : RawResponse) : Except ClientError RawResponse :=
  if !res.ok then Except.error (ClientError.http res) else Except.ok res

/-- `ImportClient.deleteImportIfExists`, as a function of the outcome of the
underlying `deleteImport` call: a 404 `HttpError` is swallowed, everything
else is passed through. -/
def deleteImportIfExists (deleteResult : Except ClientError Unit) : Except ClientError Unit :=
  match deleteResult with
  | Except.ok u => Except.ok u
  | Except.error e =>
    match e with
    | ClientError.http res =>
      if res.status == 404 then Except.ok () else Except.error (ClientError.http res)
    | ClientError.transport m => Except.error (ClientError.transport m)

/-- The drain loop `for await (const _chunk of res.body);` — consumes every
chunk of the stream and discards it, returning the remaining stream. -/
def forAwaitDrain : List (List Nat) → List (List Nat)
  | [] => []
  | _ :: rest => forAwaitDrain rest

/-- `Client.requestVoid` applied to a successful response: drains the body
stream (when present) before resolving with `()`. The second component is
the state of the response after the call. -/
def requestVoid (res : RawResponse) : Unit × RawResponse :=
  match res.bodyChunks with
  | Option.none => ((), res)
  | some chunks => ((), ⟨res.status, res.headers, some (forAwaitDrain chunks)⟩)

/-- C5: the executor raises an `HttpError` carrying the raw response exactly
when the status is not 2xx, leaving the response (body handle included)
unread; every 2xx response is returned unchanged. -/
theorem handleResponse_classifies (res : RawResponse) :
    (200 ≤ res.status ∧ res.status ≤ 299 → handleResponse res = Except.ok res) ∧
    (¬(200 ≤ res.status ∧ res.status ≤ 299) →
      handleResponse res = Except.error (ClientError.http res)) := by
  constructor
  · intro h
    unfold handleResponse RawResponse.ok
    rw [decide_eq_true h]
    rfl
  · intro h
    unfold handleResponse RawResponse.ok
    rw [decide_eq_false h]
    rfl

/-- Witness for C5: a 204 response passes through unchanged; a 404 response
raises an `HttpError` carrying that very response. -/
theorem handleResponse_classifies_witness :
    handleResponse ⟨204, [], Option.none⟩ = Except.ok ⟨204, [], Option.none⟩ ∧
    handleResponse ⟨404, [], Option.none⟩ =
      Except.error (ClientError.http ⟨404, [], Option.none⟩) :=
  ⟨(handleResponse_classifies ⟨204, [], Option.none⟩).1 (by decide),
   (handleResponse_classifies ⟨404, [], Option.none⟩).2 (by decide)⟩

/-- C7: `deleteImportIfExists` swallows exactly a 404 `HttpError` from the
underlying delete; any other `HttpError`, any transport error, and any
success propagate unchanged. -/
theorem deleteImportIfExists_spec (res : RawResponse) (m : String) (u : Unit) :
    (res.status = 404 →
      deleteImportIfExists (Except.error (ClientError.http res)) = Except.ok ()) ∧
    (res.status ≠ 404 →
      deleteImportIfExists (Except.error (ClientError.http res)) =
        Except.error (ClientError.http res)) ∧
    deleteImportIfExists (Except.error (ClientError.transport m)) =
      Except.error (ClientError.transport m) ∧
    deleteImportIfExists (Except.ok u) = Except.ok u := by
  refine ⟨?_, ?_, rfl, rfl⟩
  · intro h
    simp [deleteImportIfExists, h]
  · intro h
    simp [deleteImportIfExists, beq_iff_eq, h]

/-- Witness for C7: a 404 delete failure resolves without error, a 500
failure propagates. -/
theorem deleteImportIfExists_spec_witness :
    deleteImportIfExists (Except.error (ClientError.http ⟨404, [], Option.none⟩)) =
      Except.ok () ∧
    deleteImportIfExists (Except.error (ClientError.http ⟨500, [], Option.none⟩)) =
      Except.error (ClientError.http ⟨500, [], Option.none⟩) :=
  ⟨(deleteImportIfExists_spec ⟨404, [], Option.none⟩ "x" ()).1 (by decide),
   (deleteImportIfExists_spec ⟨500, [], Option.none⟩ "x" ()).2.1 (by decide)⟩

/-- The drain loop leaves nothing in the stream. -/
theorem forAwaitDrain_nil (l : List (List Nat)) : forAwaitDrain l = [] := by
  induction l with
  | nil => rfl
  | cons x xs ih => exact ih

/-- C8: `requestVoid` consumes the response body stream to completion before
resolving — afterwards the stream holds no unread chunk (and a `null` body
leaves the response untouched). -/
theorem requestVoid_drains (res : RawResponse) :
    (∀ chunks, res.bodyChunks = some chunks →
      (requestVoid res).2.bodyChunks = some [] ∧ (requestVoid res).1 = ()) ∧
    (res.bodyChunks = Option.none → (requestVoid res).2 = res) := by
  constructor
  · intro chunks h
    unfold requestVoid
    rw [h]
    exact ⟨by simp [forAwaitDrain_nil], rfl⟩
  · intro h
    unfold requestVoid
    rw [h]

/-- Witness for C8: a two-chunk body is fully consumed. -/
theorem requestVoid_drains_witness :
    (requestVoid ⟨200, [], some [[1], [2, 3]]⟩).2.bodyChunks = some [] :=
  ((requestVoid_drains ⟨200, [], some [[1], [2, 3]]⟩).1 [[1], [2, 3]] rfl).1

/-- C9: with a configured project id other than the `-1` sentinel, every
endpoint path built through `projectUrl` carries the project-scoped prefix
`/v2/projects/<id>`; with no project id or the sentinel, the unscoped
`/v2/projects` prefix is used. -/
theorem projectUrl_scoping (params : ClientParams) (pid : Int) :
    (params.projectId = some pid → pid ≠ -1 →
      projectUrl params = "/v2/projects/" ++ toString pid ∧
      addFilesPath params = "/v2/projects/" ++ toString pid ++ "/import" ∧
      applyImportPath params = "/v2/projects/" ++ toString pid ++ "/import/apply" ∧
      deleteImportPath params = "/v2/projects/" ++ toString pid ++ "/import") ∧
    (params.projectId = Option.none ∨ params.projectId = some (-1) →
      projectUrl params = "/v2/projects") := by
  constructor
  · intro h hne
    have hu : projectUrl params = "/v2/projects/" ++ toString pid := by
      unfold projectUrl
      rw [h]
      simp [hne]
    exact ⟨hu, by simp [addFilesPath, hu], by simp [applyImportPath, hu],
      by simp [deleteImportPath, hu]⟩
  · rintro (h | h) <;> simp [projectUrl, h]

/-- Witness for C9: project id 1337 scopes the path, the sentinel does not. -/
theorem projectUrl_scoping_witness :
    projectUrl ⟨"https://app.tolgee.io", "key", some 1337⟩ =
      "/v2/projects/" ++ toString (1337 : Int) ∧
    projectUrl ⟨"https://app.tolgee.io", "key", some (-1)⟩ = "/v2/projects" :=
  ⟨((projectUrl_scoping ⟨"https://app.tolgee.io", "key", some 1337⟩ 1337).1 rfl
      (by decide)).1,
   (projectUrl_scoping ⟨"https://app.tolgee.io", "key", some (-1)⟩ 0).2 (Or.inr rfl)⟩

/-! ## Header lemmas -/

/-- Looking up the key just assigned (map branch of `setHdr`). -/
theorem find?_mapSet_self (k v : String) (hs : List (String × String))
    (hany : hs.any (fun p => p.1 == k) = true) :
    (hs.map (fun p => if p.1 = k then (k, v) else p)).find? (fun p => p.1 == k) =
      some (k, v) := by
  induction hs with
  | nil => simp at hany
  | cons p ps ih =>
    rw [List.map_cons]
    by_cases hp : p.1 = k
    · rw [if_pos hp]
      exact List.find?_cons_of_pos _ (by simp)
    · rw [if_neg hp]
      have hany' : ps.any (fun p => p.1 == k) = true := by
        rcases List.any_eq_true.mp hany with ⟨x, hx, hxk⟩
        rcases List.mem_cons.mp hx with h | h
        · subst h; exact absurd (by simpa using hxk) hp
        · exact List.any_eq_true.mpr ⟨x, h, hxk⟩
      rw [List.find?_cons_of_neg _ (by simp [hp])]
      exact ih hany'

/-- Assigning key `k` does not disturb lookups of a different key
(map branch of `setHdr`). -/
theorem find?_mapSet_other (k v k' : String) (hk : k' ≠ k) (hs : List (String × String)) :
    (hs.map (fun p => if p.1 = k then (k, v) else p)).find? (fun p => p.1 == k') =
      hs.find? (fun p => p.1 == k') := by
  induction hs with
  | nil => rfl
  | cons p ps ih =>
    rw [List.map_cons]
    by_cases hp : p.1 = k
    · rw [if_pos hp]
      rw [List.find?_cons_of_neg _ (by simp [Ne.symm hk]),
        List.find?_cons_of_neg _ (by simp [hp, Ne.symm hk])]
      exact ih
    · rw [if_neg hp]
      by_cases hp' : p.1 = k'
      · rw [List.find?_cons_of_pos _ (by simp [hp']),
          List.find?_cons_of_pos _ (by simp [hp'])]
      · rw [List.find?_cons_of_neg _ (by simp [hp']),
          List.find?_cons_of_neg _ (by simp [hp'])]
        exact ih

/-- `h[k] = v` makes a lookup of `k` yield `v`. -/
theorem getHdr_setHdr_self (hs : List (String × String)) (k v : String) :
    getHdr (setHdr hs k v) k = some v := by
  unfold setHdr getHdr
  by_cases hany : hs.any (fun p => p.1 == k) = true
  · rw [if_pos hany, find?_mapSet_self k v hs hany]
    rfl
  · rw [if_neg hany, List.find?_append]
    have hnone : hs.find? (fun p => p.1 == k) = Option.none := by
      rw [List.find?_eq_none]
      intro x hx
      have := (List.any_eq_false.mp (Bool.not_eq_true _ ▸ hany)) x hx
      simpa using this
    rw [hnone]
    simp [List.find?]

/-- `h[k] = v` does not disturb lookups of a different key. -/
theorem getHdr_setHdr_other (hs : List (String × String)) (k v k' : String)
    (hk : k' ≠ k) :
    getHdr (setHdr hs k v) k' = getHdr hs k' := by
  unfold setHdr getHdr
  by_cases hany : hs.any (fun p => p.1 == k) = true
  · rw [if_pos hany, find?_mapSet_other k v k' hk hs]
  · rw [if_neg hany, List.find?_append]
    have h1 : (k == k') = false := by simp [Ne.symm hk]
    cases hfind : hs.find? (fun p => p.1 == k') <;> simp [List.find?, h1, hfind]

/-- Reduction of `clientRequest` on a `FormData` body. -/
theorem clientRequest_form (params : ClientParams) (version : String) (req : RequestData)
    (fd : FormData) (hb : req.body = ReqBody.form fd) :
    (clientRequest params version req).headers =
      setHdr (setHdr (setHdr req.headers "x-api-key" params.apiKey)
        "content-type" ("multipart/form-data; boundary=" ++ fd.boundary))
        "user-agent" (userAgent version) ∧
    (clientRequest params version req).body = some (SentBody.bytes fd.buffer) := by
  unfold clientRequest
  rw [hb]
  exact ⟨rfl, rfl⟩

/-- Reduction of `clientRequest` on a truthy JSON body. -/
theorem clientRequest_json (params : ClientParams) (version : String) (req : RequestData)
    (v : JsonVal) (hb : req.body = ReqBody.json v) (ht : v.truthy = true) :
    (clientRequest params version req).headers =
      setHdr (setHdr (setHdr req.headers "x-api-key" params.apiKey)
        "content-type" "application/json") "user-agent" (userAgent version) ∧
    (clientRequest params version req).body = some (SentBody.str v.stringify) := by
  unfold clientRequest
  rw [hb]
  simp [ReqBody.truthy, ht]

/-- Reduction of `clientRequest` on a falsy (absent or JS-falsy) body. -/
theorem clientRequest_falsy (params : ClientParams) (version : String) (req : RequestData)
    (ht : req.body.truthy = false) :
    (clientRequest params version req).headers =
      setHdr (setHdr req.headers "x-api-key" params.apiKey)
        "user-agent" (userAgent version) ∧
    (clientRequest params version req).body = Option.none := by
  unfold clientRequest
  simp [ht]

/-- C4 counterexample: the code guards the body with JS truthiness
(`if (req.body)`), not definedness. A defined falsy body (`false`) is sent
as no body with no JSON content-type, although the claim prescribes its JSON
encoding; and with no body at all, a descriptor-supplied content-type header
still reaches the issued request, although the claim prescribes no
content-type header. -/
theorem clientRequest_body_encoding_counterexample :
    (clientRequest ⟨"https://a", "key", Option.none⟩ "1.0.0"
      ⟨"POST", "/p", ReqBody.json (JsonVal.bool false), [], []⟩).body = Option.none ∧
    (clientRequest ⟨"https://a", "key", Option.none⟩ "1.0.0"
      ⟨"POST", "/p", ReqBody.json (JsonVal.bool false), [], []⟩).body ≠
      some (SentBody.str (JsonVal.stringify (JsonVal.bool false))) ∧
    getHdr (clientRequest ⟨"https://a", "key", Option.none⟩ "1.0.0"
      ⟨"GET", "/p", ReqBody.none, [], [("content-type", "text/plain")]⟩).headers
      "content-type" ≠ Option.none := by
  refine ⟨rfl, ?_, ?_⟩
  · intro h
    exact Option.noConfusion h
  · intro h
    exact Option.noConfusion h

/-- C4 (amended): for a body that is absent or JS-falsy, the issued request
has no body and no executor-added content-type (a descriptor-supplied
content-type passes through); a `FormData` body is sent as the encoded
multipart bytes under `multipart/form-data` with its boundary; any other
truthy body is sent as its JSON encoding under `application/json`. -/
theorem clientRequest_body_encoding (params : ClientParams) (version : String)
    (req : RequestData) :
    (req.body.truthy = false →
      (clientRequest params version req).body = Option.none ∧
      (getHdr req.headers "content-type" = Option.none →
        getHdr (clientRequest params version req).headers "content-type" = Option.none)) ∧
    (∀ fd, req.body = ReqBody.form fd →
      (clientRequest params version req).body = some (SentBody.bytes fd.buffer) ∧
      getHdr (clientRequest params version req).headers "content-type" =
        some ("multipart/form-data; boundary=" ++ fd.boundary)) ∧
    (∀ v, req.body = ReqBody.json v → JsonVal.truthy v = true →
      (clientRequest params version req).body = some (SentBody.str (JsonVal.stringify v)) ∧
      getHdr (clientRequest params version req).headers "content-type" =
        some "application/json") := by
  refine ⟨?_, ?_, ?_⟩
  · intro ht
    obtain ⟨hh, hbody⟩ := clientRequest_falsy params version req ht
    refine ⟨hbody, ?_⟩
    intro hct
    rw [hh, getHdr_setHdr_other _ _ _ _ (by decide), getHdr_setHdr_other _ _ _ _ (by decide),
      hct]
  · intro fd hb
    obtain ⟨hh, hbody⟩ := clientRequest_form params version req fd hb
    refine ⟨hbody, ?_⟩
    rw [hh, getHdr_setHdr_other _ _ _ _ (by decide), getHdr_setHdr_self]
  · intro v hb ht
    obtain ⟨hh, hbody⟩ := clientRequest_json params version req v hb ht
    refine ⟨hbody, ?_⟩
    rw [hh, getHdr_setHdr_other _ _ _ _ (by decide), getHdr_setHdr_self]

/-- Witness for C4 (amended): a concrete multipart body is sent as its
encoded bytes with the boundary in the content-type header. -/
theorem clientRequest_body_encoding_witness :
    (clientRequest ⟨"https://app.tolgee.io", "tgpat_x", Option.none⟩ "1.0.0"
      ⟨"POST", "/v2/projects/import", ReqBody.form ⟨"bnd", [1, 2]⟩, [], []⟩).body =
      some (SentBody.bytes [1, 2]) ∧
    getHdr (clientRequest ⟨"https://app.tolgee.io", "tgpat_x", Option.none⟩ "1.0.0"
      ⟨"POST", "/v2/projects/import", ReqBody.form ⟨"bnd", [1, 2]⟩, [], []⟩).headers
      "content-type" = some ("multipart/form-data; boundary=" ++ "bnd") :=
  (clientRequest_body_encoding ⟨"https://app.tolgee.io", "tgpat_x", Option.none⟩ "1.0.0"
    ⟨"POST", "/v2/projects/import", ReqBody.form ⟨"bnd", [1, 2]⟩, [], []⟩).2.1
    ⟨"bnd", [1, 2]⟩ rfl

/-- C10 counterexample: a descriptor-supplied `content-type` header is not
passed through unchanged — with a truthy body the executor overrides it. -/
theorem clientRequest_header_override_counterexample :
    getHdr (clientRequest ⟨"https://a", "key", Option.none⟩ "1.0.0"
      ⟨"POST", "/p", ReqBody.json (JsonVal.obj []), [], [("content-type", "text/plain")]⟩).headers
      "content-type" = some "application/json" ∧
    getHdr (clientRequest ⟨"https://a", "key", Option.none⟩ "1.0.0"
      ⟨"POST", "/p", ReqBody.json (JsonVal.obj []), [], [("content-type", "text/plain")]⟩).headers
      "content-type" ≠ some "text/plain" := by
  refine ⟨rfl, ?_⟩
  intro h
  have := Option.some.inj h
  exact absurd this (by decide)

/-- C10 (amended): the issued `x-api-key` header always equals the client's
bound key and `user-agent` always equals the tool identifier, overriding
descriptor-supplied headers of those names; every other descriptor header
except `content-type` passes through unchanged, and `content-type` passes
through exactly when the body is absent or falsy (a truthy body overrides
it with the executor's own value). -/
theorem clientRequest_header_override (params : ClientParams) (version : String)
    (req : RequestData) :
    getHdr (clientRequest params version req).headers "x-api-key" = some params.apiKey ∧
    getHdr (clientRequest params version req).headers "user-agent" =
      some (userAgent version) ∧
    (∀ hk : String, hk ≠ "x-api-key" → hk ≠ "user-agent" → hk ≠ "content-type" →
      getHdr (clientRequest params version req).headers hk = getHdr req.headers hk) ∧
    (req.body.truthy = false →
      getHdr (clientRequest params version req).headers "content-type" =
        getHdr req.headers "content-type") := by
  have chain2 : ∀ H : List (String × String),
      getHdr (setHdr (setHdr H "x-api-key" params.apiKey) "user-agent" (userAgent version))
        "x-api-key" = some params.apiKey ∧
      getHdr (setHdr (setHdr H "x-api-key" params.apiKey) "user-agent" (userAgent version))
        "user-agent" = some (userAgent version) ∧
      (∀ hk : String, hk ≠ "x-api-key" → hk ≠ "user-agent" →
        getHdr (setHdr (setHdr H "x-api-key" params.apiKey) "user-agent"
          (userAgent version)) hk = getHdr H hk) := by
    intro H
    refine ⟨?_, getHdr_setHdr_self _ _ _, ?_⟩
    · rw [getHdr_setHdr_other _ _ _ _ (by decide), getHdr_setHdr_self]
    · intro hk h1 h2
      rw [getHdr_setHdr_other _ _ _ _ h2, getHdr_setHdr_other _ _ _ _ h1]
  have chain3 : ∀ (H : List (String × String)) (ct : String),
      getHdr (setHdr (setHdr (setHdr H "x-api-key" params.apiKey) "content-type" ct)
        "user-agent" (userAgent version)) "x-api-key" = some params.apiKey ∧
      getHdr (setHdr (setHdr (setHdr H "x-api-key" params.apiKey) "content-type" ct)
        "user-agent" (userAgent version)) "user-agent" = some (userAgent version) ∧
      (∀ hk : String, hk ≠ "x-api-key" → hk ≠ "user-agent" → hk ≠ "content-type" →
        getHdr (setHdr (setHdr (setHdr H "x-api-key" params.apiKey) "content-type" ct)
          "user-agent" (userAgent version)) hk = getHdr H hk) := by
    intro H ct
    refine ⟨?_, getHdr_setHdr_self _ _ _, ?_⟩
    · rw [getHdr_setHdr_other _ _ _ _ (by decide), getHdr_setHdr_other _ _ _ _ (by decide),
        getHdr_setHdr_self]
    · intro hk h1 h2 h3
      rw [getHdr_setHdr_other _ _ _ _ h2, getHdr_setHdr_other _ _ _ _ h3,
        getHdr_setHdr_other _ _ _ _ h1]
  cases hbt : req.body.truthy with
  | false =>
    obtain ⟨hh, _⟩ := clientRequest_falsy params version req hbt
    rw [hh]
    obtain ⟨c1, c2, c3⟩ := chain2 req.headers
    exact ⟨c1, c2, fun hk h1 h2 _ => c3 hk h1 h2,
      fun _ => c3 "content-type" (by decide) (by decide)⟩
  | true =>
    cases hb : req.body with
    | none => rw [hb] at hbt; exact absurd hbt (by simp [ReqBody.truthy])
    | form fd =>
      obtain ⟨hh, _⟩ := clientRequest_form params version req fd hb
      rw [hh]
      obtain ⟨c1, c2, c3⟩ := chain3 req.headers ("multipart/form-data; boundary=" ++ fd.boundary)
      exact ⟨c1, c2, c3, fun hf => absurd hf (by simp [ReqBody.truthy])⟩
    | json v =>
      have ht : v.truthy = true := by rw [hb] at hbt; simpa [ReqBody.truthy] using hbt
      obtain ⟨hh, _⟩ := clientRequest_json params version req v hb ht
      rw [hh]
      obtain ⟨c1, c2, c3⟩ := chain3 req.headers "application/json"
      exact ⟨c1, c2, c3, fun hf => by simp [ReqBody.truthy, ht] at hf⟩

/-- Witness for C10 (amended): with a descriptor that itself supplies
`x-api-key`, `user-agent` and an unrelated header, the issued request binds
the client's key and the tool identity and passes the unrelated header. -/
theorem clientRequest_header_override_witness :
    getHdr (clientRequest ⟨"https://a", "tgpat_y", Option.none⟩ "2.1.0"
      ⟨"GET", "/p", ReqBody.none, [],
        [("x-api-key", "evil"), ("user-agent", "evil"), ("x-custom", "keep")]⟩).headers
      "x-api-key" = some "tgpat_y" ∧
    getHdr (clientRequest ⟨"https://a", "tgpat_y", Option.none⟩ "2.1.0"
      ⟨"GET", "/p", ReqBody.none, [],
        [("x-api-key", "evil"), ("user-agent", "evil"), ("x-custom", "keep")]⟩).headers
      "user-agent" = some (userAgent "2.1.0") ∧
    getHdr (clientRequest ⟨"https://a", "tgpat_y", Option.none⟩ "2.1.0"
      ⟨"GET", "/p", ReqBody.none, [],
        [("x-api-key", "evil"), ("user-agent", "evil"), ("x-custom", "keep")]⟩).headers
      "x-custom" = some "keep" := by
  have h := clientRequest_header_override ⟨"https://a", "tgpat_y", Option.none⟩ "2.1.0"
    ⟨"GET", "/p", ReqBody.none, [],
      [("x-api-key", "evil"), ("user-agent", "evil"), ("x-custom", "keep")]⟩
  exact ⟨h.1, h.2.1, (h.2.2.1 "x-custom" (by decide) (by decide) (by decide)).trans (by decide)⟩

/-! ## Query serialization -/

/-- The query-string occurrences prescribed for one mapping entry: nothing
for `undefined`, the single stringified value for a scalar, one value per
element in order for a list. -/
def expectedOcc : QueryVal → List String
  | .undef => []
  | .scalar p => [p.toStr]
  | .list l => l.map Prim.toStr

/-- Filtering by `p` after filtering by `q` is filtering by `p` alone when
`p` implies `q`. -/
theorem filter_filter_of_imp {α : Type} (p q : α → Bool)
    (hpq : ∀ x, p x = true → q x = true) (l : List α) :
    (l.filter q).filter p = l.filter p := by
  induction l with
  | nil => rfl
  | cons x xs ih =>
    by_cases hq : q x = true
    · rw [List.filter_cons_of_pos hq]
      by_cases hp : p x = true
      · rw [List.filter_cons_of_pos hp, List.filter_cons_of_pos hp, ih]
      · rw [List.filter_cons_of_neg (by simpa using hp),
          List.filter_cons_of_neg (by simpa using hp), ih]
    · have hp : p x = false := by
        by_cases h : p x = true
        · exact absurd (hpq x h) hq
        · simpa using h
      rw [List.filter_cons_of_neg hq, List.filter_cons_of_neg (by simp [hp]), ih]

theorem occ_append (k : String) (ps qs : List (String × String)) :
    occ k (ps ++ qs) = occ k ps ++ occ k qs := by
  unfold occ
  rw [List.filter_append, List.map_append]

theorem occ_cons_self (k v : String) (ps : List (String × String)) :
    occ k ((k, v) :: ps) = v :: occ k ps := by
  simp [occ]

theorem occ_cons_other (k : String) (p : String × String) (ps : List (String × String))
    (hp : p.1 ≠ k) : occ k (p :: ps) = occ k ps := by
  simp [occ, hp]

theorem occ_cons_eq (k : String) (p : String × String) (ps : List (String × String))
    (hp : p.1 = k) : occ k (p :: ps) = p.2 :: occ k ps := by
  simp [occ, hp]

theorem occ_appendParam_self (k v : String) (ps : List (String × String)) :
    occ k (appendParam ps k v) = occ k ps ++ [v] := by
  unfold appendParam
  rw [occ_append]
  simp [occ]

theorem occ_appendParam_other (k k' v : String) (hk : k ≠ k') (ps : List (String × String)) :
    occ k (appendParam ps k' v) = occ k ps := by
  unfold appendParam
  rw [occ_append]
  simp [occ, Ne.symm hk]

/-- `searchParams.set` leaves exactly one value under the written key. -/
theorem occ_setParam_self (k v : String) (ps : List (String × String)) :
    occ k (setParam ps k v) = [v] := by
  induction ps with
  | nil => simp [setParam, occ]
  | cons p ps ih =>
    simp only [setParam]
    by_cases hp : p.1 = k
    · rw [if_pos hp, occ_cons_self]
      have hnil : occ k (ps.filter (fun q => q.1 != k)) = [] := by
        unfold occ
        rw [filter_filter_nil (fun p => p.1 == k) (fun q => q.1 != k) ?_ ps]
        · rfl
        · intro x hx
          have hxk : x.1 = k := by simpa using hx
          simp [hxk]
      rw [hnil]
    · rw [if_neg hp, occ_cons_other k p _ hp]
      exact ih

/-- `searchParams.set` on another key leaves the values under `k` intact. -/
theorem occ_setParam_other (k k' v : String) (hk : k ≠ k') (ps : List (String × String)) :
    occ k (setParam ps k' v) = occ k ps := by
  induction ps with
  | nil => simp [setParam, occ, Ne.symm hk]
  | cons p ps ih =>
    simp only [setParam]
    by_cases hp : p.1 = k'
    · rw [if_pos hp, occ_cons_other k (k', v) _ (Ne.symm hk),
        occ_cons_other k p ps (by rw [hp]; exact Ne.symm hk)]
      unfold occ
      rw [filter_filter_of_imp (fun p => p.1 == k) (fun q => q.1 != k') ?_ ps]
      intro x hx
      have hxk : x.1 = k := by simpa using hx
      simp [hxk, hk]
    · rw [if_neg hp]
      by_cases hpk : p.1 = k
      · rw [occ_cons_eq k p _ hpk, occ_cons_eq k p ps hpk, ih]
      · rw [occ_cons_other k p _ hpk, occ_cons_other k p ps hpk]
        exact ih

/-- Appending one search param per list element adds exactly those values
in order under the appended key. -/
theorem occ_listAppend_self (k : String) (l : List Prim) (ps : List (String × String)) :
    occ k (l.foldl (fun acc x => appendParam acc k x.toStr) ps) =
      occ k ps ++ l.map Prim.toStr := by
  induction l generalizing ps with
  | nil => simp
  | cons x xs ih =>
    rw [List.foldl_cons, ih, occ_appendParam_self]
    simp

theorem occ_listAppend_other (k k' : String) (hk : k ≠ k') (l : List Prim)
    (ps : List (String × String)) :
    occ k (l.foldl (fun acc x => appendParam acc k' x.toStr) ps) = occ k ps := by
  induction l generalizing ps with
  | nil => rfl
  | cons x xs ih =>
    rw [List.foldl_cons, ih, occ_appendParam_other k k' _ hk]

/-- Serializing an entry with a different key never touches the values of
key `k`. -/
theorem occ_applyQueryEntry_other (k : String) (e : String × QueryVal)
    (hk : k ≠ e.1) (ps : List (String × String)) :
    occ k (applyQueryEntry ps e) = occ k ps := by
  obtain ⟨k', v⟩ := e
  cases v with
  | undef => rfl
  | scalar p => exact occ_setParam_other k k' _ hk ps
  | list l => exact occ_listAppend_other k k' hk l ps

/-- Folding the serialization loop over entries with other keys preserves
the values of key `k`. -/
theorem occ_foldl_notin (k : String) (q : List (String × QueryVal)) :
    ∀ ps : List (String × String), (∀ e ∈ q, k ≠ e.1) →
      occ k (q.foldl applyQueryEntry ps) = occ k ps := by
  induction q with
  | nil => intro ps _; rfl
  | cons e rest ih =>
    intro ps hk
    rw [List.foldl_cons, ih _ (fun e' he' => hk e' (List.mem_cons_of_mem _ he')),
      occ_applyQueryEntry_other k e (hk e (List.mem_cons_self _ _)) ps]

/-- Generalized form of the query-serialization property over an arbitrary
starting accumulator with no values for the key. -/
theorem buildQuery_aux (k : String) (v : QueryVal) (q : List (String × QueryVal)) :
    ∀ ps : List (String × String), (q.map Prod.fst).Nodup → (k, v) ∈ q →
      occ k ps = [] → occ k (q.foldl applyQueryEntry ps) = expectedOcc v := by
  induction q with
  | nil => intro ps _ hmem _; exact absurd hmem (List.not_mem_nil _)
  | cons e rest ih =>
    intro ps hnd hmem hps
    rw [List.map_cons, List.nodup_cons] at hnd
    rw [List.foldl_cons]
    rcases List.mem_cons.mp hmem with he | he
    · subst he
      have hkrest : ∀ e' ∈ rest, k ≠ e'.1 := by
        intro e' he' hkk
        have hmem' : e'.1 ∈ rest.map Prod.fst := List.mem_map_of_mem Prod.fst he'
        rw [← hkk] at hmem'
        exact hnd.1 hmem'
      rw [occ_foldl_notin k rest _ hkrest]
      cases v with
      | undef => simpa [applyQueryEntry, expectedOcc] using hps
      | scalar p =>
        simp only [applyQueryEntry, expectedOcc]
        exact occ_setParam_self k p.toStr ps
      | list l =>
        simp only [applyQueryEntry, expectedOcc]
        rw [occ_listAppend_self, hps]
        rfl
    · have hkne : k ≠ e.1 := by
        intro hkk
        have hmem' : k ∈ rest.map Prod.fst := List.mem_map_of_mem Prod.fst he
        rw [hkk] at hmem'
        exact hnd.1 hmem'
      exact ih (applyQueryEntry ps e) hnd.2 he
        (by rw [occ_applyQueryEntry_other k e hkne ps]; exact hps)

/-- C6: for a query mapping with pairwise distinct keys, each key with a
defined scalar value appears exactly once in the serialized query, each key
with a list value appears once per element in list order, and each key with
an `undefined` value is entirely absent. -/
theorem buildQuery_spec (q : List (String × QueryVal)) (k : String) (v : QueryVal)
    (hnd : (q.map Prod.fst).Nodup) (hmem : (k, v) ∈ q) :
    occ k (buildQuery q) = expectedOcc v :=
  buildQuery_aux k v q [] hnd hmem rfl

/-- Witness for C6: a mapping with a scalar, a two-element list and an
undefined entry serializes the list key to its two values in order. -/
theorem buildQuery_spec_witness :
    occ "b" (buildQuery [("a", QueryVal.scalar (Prim.num 1)),
      ("b", QueryVal.list [Prim.str "x", Prim.str "y"]), ("c", QueryVal.undef)]) =
      expectedOcc (QueryVal.list [Prim.str "x", Prim.str "y"]) :=
  buildQuery_spec [("a", QueryVal.scalar (Prim.num 1)),
    ("b", QueryVal.list [Prim.str "x", Prim.str "y"]), ("c", QueryVal.undef)]
    "b" (QueryVal.list [Prim.str "x", Prim.str "y"]) (by decide) (by decide)

end Tolgee
